import Mathlib

/-!
Shallow embedding of `markov_chains.py` (Rock-Paper-Scissors with a first-order
Markov opponent).  Real-valued probabilities are modelled as exact rationals,
numpy arrays of per-round points as total functions `Nat → Int`, and numpy
index wrapping (an index `-1` addressing the last cell) by reduction modulo 3.
The random sampler and the GUI dialogs are modelled as explicit inputs: each
round takes the sampled AI move and the "play again" dialog answer as
parameters; pressing a GUI button corresponds to calling `play_game` with an
arbitrary string.
-/

namespace MarkovChains

/-- Embeds `check_result` (markov_chains.py lines 14-36): the dictionary of the
six decided pairs, any other pair (ties included) falling through to `0`. -/
def check_result (player_selection ai_selection : String) : Int :=
  if player_selection = "Rock" ∧ ai_selection = "Scissors" then 1
  else if player_selection = "Paper" ∧ ai_selection = "Rock" then 1
  else if player_selection = "Scissors" ∧ ai_selection = "Paper" then 1
  else if player_selection = "Rock" ∧ ai_selection = "Paper" then -1
  else if player_selection = "Paper" ∧ ai_selection = "Scissors" then -1
  else if player_selection = "Scissors" ∧ ai_selection = "Rock" then -1
  else 0

/-- Embeds `get_index` (lines 39-57): index of a move string in the states
array, `-1` for anything else. -/
def get_index (selection : String) : Int :=
  if selection = "Rock" then 0
  else if selection = "Paper" then 1
  else if selection = "Scissors" then 2
  else -1

/-- Numpy indexing of a length-3 axis for the indices the program produces
(all lie in `[-3, 3)`, where a negative index counts from the end): reduction
modulo 3.  Lean's `Int.emod` is non-negative for a positive modulus, so
`toFin3 (-1) = 2`, matching `row[-1]` in numpy. -/
def toFin3 (i : Int) : Fin 3 :=
  ⟨(i % 3).toNat, by
    have h1 : 0 ≤ i % 3 := Int.emod_nonneg i (by norm_num)
    have h2 : i % 3 < 3 := Int.emod_lt_of_pos i (by norm_num)
    omega⟩

/-- The state of `TransitionManager` (lines 213-242): the 3×3 transition
matrix and the adjustment step. -/
structure TransitionManager where
  transition_matrix : Fin 3 → Fin 3 → ℚ
  transition_adjustment : ℚ

/-- Embeds `TransitionManager.__init__` (lines 222-226): uniform matrix,
adjustment 0.05. -/
def TransitionManager.start : TransitionManager :=
  { transition_matrix := fun _ _ => 1 / 3
    transition_adjustment := 1 / 20 }

/-- Pointwise update of one matrix cell, the effect of one numpy assignment
`matrix[p][c] = v`. -/
def setCell (m : Fin 3 → Fin 3 → ℚ) (p c : Fin 3) (v : ℚ) : Fin 3 → Fin 3 → ℚ :=
  fun p2 c2 => if p2 = p ∧ c2 = c then v else m p2 c2

/-- The guard of `TransitionManager.learn` (lines 237-239), with
`i, j, k = ((current_index + 1) % 3, (current_index + 2) % 3, current_index)`
as on line 236. -/
def learnGuard (tm : TransitionManager) (previous_index current_index : Int) : Prop :=
  tm.transition_matrix (toFin3 previous_index) (toFin3 current_index)
      - tm.transition_adjustment / 2 ≥ 0 ∧
  tm.transition_matrix (toFin3 previous_index) (toFin3 ((current_index + 2) % 3))
      - tm.transition_adjustment / 2 ≥ 0 ∧
  tm.transition_matrix (toFin3 previous_index) (toFin3 ((current_index + 1) % 3))
      + tm.transition_adjustment ≤ 1

instance (tm : TransitionManager) (p c : Int) : Decidable (learnGuard tm p c) := by
  unfold learnGuard
  infer_instance

/-- The matrix produced by the guarded branch of `learn` (lines 240-242): the
three sequential in-place cell updates, in source order (`k`, then `j`,
then `i`). -/
def learnUpdated (tm : TransitionManager) (previous_index current_index : Int) :
    Fin 3 → Fin 3 → ℚ :=
  let p := toFin3 previous_index
  let i := toFin3 ((current_index + 1) % 3)
  let j := toFin3 ((current_index + 2) % 3)
  let k := toFin3 current_index
  let m1 := setCell tm.transition_matrix p k
    (tm.transition_matrix p k - tm.transition_adjustment / 2)
  let m2 := setCell m1 p j (m1 p j - tm.transition_adjustment / 2)
  setCell m2 p i (m2 p i + tm.transition_adjustment)

/-- Embeds `TransitionManager.learn` (lines 228-242). -/
def TransitionManager.learn (tm : TransitionManager) (previous_index current_index : Int) :
    TransitionManager :=
  if learnGuard tm previous_index current_index then
    { tm with transition_matrix := learnUpdated tm previous_index current_index }
  else tm

/-- The prediction row used on lines 320 and 329: the matrix row indexed by
the previous move, as sampled from by `np.random.choice`. -/
def TransitionManager.predict (tm : TransitionManager) (previous_index : Int) :
    Fin 3 → ℚ :=
  tm.transition_matrix (toFin3 previous_index)

/-- The `states` array (line 272), indexed by the position the sampler drew. -/
def stateAt (i : Fin 3) : String :=
  if i = 0 then "Rock" else if i = 1 then "Paper" else "Scissors"

/-- The engine state of `RockPaperScissorsGame` (lines 259-295): the two
per-round point arrays of `PointsManager` (numpy arrays of length
`num_of_games`, here total functions that are zero outside the written
indices), the round counter of `GameManager`, the previous selection and the
transition manager.  GUI fields are omitted. -/
structure GameState where
  num_of_games : Nat
  num_round : Nat
  all_ai_points : Nat → Int
  all_player_points : Nat → Int
  previous_user_selection : String
  tm : TransitionManager

/-- Embeds `RockPaperScissorsGame.__init__` (lines 271-277): fresh uniform
transition manager, round 0, zeroed point arrays, empty previous selection. -/
def initGame (number_of_games : Nat) : GameState :=
  { num_of_games := number_of_games
    num_round := 0
    all_ai_points := fun _ => 0
    all_player_points := fun _ => 0
    previous_user_selection := ""
    tm := TransitionManager.start }

/-- Embeds `handle_results` (lines 341-353): score the round with
`check_result` and write the result (negated for the AI) at index
`num_round` of the point arrays. -/
def handle_results (s : GameState) (current_player_selection ai_selection : String) :
    GameState :=
  let result := check_result current_player_selection ai_selection
  { s with
    all_player_points := fun n => if n = s.num_round then result else s.all_player_points n
    all_ai_points := fun n => if n = s.num_round then -result else s.all_ai_points n }

/-- Embeds `reset_game` (lines 391-406): round counter to 0, fresh zeroed
`PointsManager`, previous selection cleared.  The transition manager is not
touched by the source, so it is not touched here. -/
def reset_game (s : GameState) : GameState :=
  { s with
    num_round := 0
    all_ai_points := fun _ => 0
    all_player_points := fun _ => 0
    previous_user_selection := "" }

/-- Embeds `play_round` (lines 308-339).  The AI selection drawn by
`np.random.choice` from the predicted row is supplied as the oracle input
`ai : Fin 3` (the sampler always returns an element of `states`). -/
def play_round (s : GameState) (current_player_selection : String) (ai : Fin 3) :
    GameState :=
  if s.num_round = s.num_of_games then
    reset_game s
  else if s.num_round = 0 then
    let s1 := { s with previous_user_selection := current_player_selection }
    let s2 := handle_results s1 current_player_selection (stateAt ai)
    { s2 with num_round := s2.num_round + 1 }
  else
    let previous_user_selection_index := get_index s.previous_user_selection
    let current_user_selection_index := get_index current_player_selection
    let s1 := { s with
      tm := s.tm.learn previous_user_selection_index current_user_selection_index }
    let s2 := handle_results s1 current_player_selection (stateAt ai)
    { s2 with
      previous_user_selection := current_player_selection
      num_round := s2.num_round + 1 }

/-- The AI running total `np.sum(self.points_manager.all_ai_points)`: the sum
of the length-`num_of_games` array. -/
def aiSum (s : GameState) : Int :=
  ∑ n ∈ Finset.range s.num_of_games, s.all_ai_points n

/-- The player running total `np.sum(self.points_manager.all_player_points)`. -/
def playerSum (s : GameState) : Int :=
  ∑ n ∈ Finset.range s.num_of_games, s.all_player_points n

/-- The `max_score` of `handle_end_game` (lines 359-360). -/
def maxScore (s : GameState) : Int :=
  max (aiSum s) (playerSum s)

/-- Embeds the engine-state effect of `handle_end_game` (lines 355-389).  The
dialogs themselves are GUI; the branch on `max_score == 10` asks whether to
play again, answered by the oracle input `play_again`, and destroys the window
otherwise, modelled as `none`. -/
def handle_end_game (s : GameState) (play_again : Bool) : Option GameState :=
  if s.num_round = s.num_of_games then some s
  else if maxScore s = 10 then
    if play_again then some (reset_game s) else none
  else some s

/-- Embeds `play_game` (lines 297-306): one button press.  `update_scores`
only repaints labels and has no engine-state effect. -/
def play_game (s : GameState) (current_player_selection : String) (ai : Fin 3)
    (play_again : Bool) : Option GameState :=
  handle_end_game (play_round s current_player_selection ai) play_again

/-- The transition-matrix states reachable from the uniform initial matrix by
`learn` calls with indices in {0,1,2}. -/
inductive TMReachable : TransitionManager → Prop where
  | start : TMReachable TransitionManager.start
  | learn : ∀ tm p c, TMReachable tm → p ∈ ({0, 1, 2} : Set Int) →
      c ∈ ({0, 1, 2} : Set Int) → TMReachable (tm.learn p c)

/-- The engine states reachable from a fresh game by button presses
(arbitrary selection strings, arbitrary sampler draws and dialog answers). -/
inductive Reachable : GameState → Prop where
  | init : ∀ n, Reachable (initGame n)
  | step : ∀ s sel ai pa s2, Reachable s → play_game s sel ai pa = some s2 →
      Reachable s2

/-- The disjunction of the two terminal-dialog conditions of
`handle_end_game`: the match is finished when the round counter has reached
the configured number of games or a cumulative score has reached 10. -/
def finishedCheck (s : GameState) : Prop :=
  s.num_round = s.num_of_games ∨ maxScore s = 10

/-- The three legal move strings (the `states` array, line 272). -/
def legalMoves : List String := ["Rock", "Paper", "Scissors"]

/-- The three winning pairs of `check_result` (the standard cyclic relation). -/
def winningPairs : List (String × String) :=
  [("Rock", "Scissors"), ("Paper", "Rock"), ("Scissors", "Paper")]

/-- The invariant maintained by `TransitionManager`: the adjustment stays at
its initial value 0.05, every row of the matrix sums to exactly 1, and every
cell lies in [0,1]. -/
def TMInv (tm : TransitionManager) : Prop :=
  tm.transition_adjustment = 1 / 20 ∧
  (∀ q, ∑ x, tm.transition_matrix q x = 1) ∧
  (∀ q x, 0 ≤ tm.transition_matrix q x ∧ tm.transition_matrix q x ≤ 1)

/-- The engine-state invariant: the round counter never exceeds the number of
games, point entries at indices from the current round on are still zero, and
every written entry is a `check_result` value, with the AI entry its
negation. -/
def GameInv (s : GameState) : Prop :=
  s.num_round ≤ s.num_of_games ∧
  (∀ n, s.num_round ≤ n → s.all_player_points n = 0 ∧ s.all_ai_points n = 0) ∧
  (∀ n, -1 ≤ s.all_player_points n ∧ s.all_player_points n ≤ 1 ∧
    s.all_ai_points n = -s.all_player_points n)

/-- A two-round trace from a fresh 5-round game: the human presses Rock twice
and the sampler draws Rock both times, so the second round calls
`learn(0, 0)` and moves the matrix away from uniform. -/
def twoRockState : GameState :=
  play_round (play_round (initGame 5) "Rock" 0) "Rock" 0

/-- A straight-wins trace in a 30-round match: the human presses Rock and the
sampler draws Scissors (`states[2]`) every round, so the player wins each
round and the cumulative score after `n` rounds is `n`. -/
def winState : Nat → GameState
  | 0 => initGame 30
  | n + 1 => play_round (winState n) "Rock" 2

end MarkovChains

namespace MarkovChains

lemma toFin3_zero : toFin3 0 = 0 := rfl

lemma toFin3_one : toFin3 1 = 1 := rfl

lemma toFin3_two : toFin3 2 = 2 := rfl

lemma toFin3_eq_iff (x y : Int) : toFin3 x = toFin3 y ↔ x % 3 = y % 3 := by
  simp only [toFin3, Fin.ext_iff]
  omega

lemma toFin3_cover (c : Int) (x : Fin 3) :
    x = toFin3 c ∨ x = toFin3 ((c + 1) % 3) ∨ x = toFin3 ((c + 2) % 3) := by
  have hx := x.isLt
  simp only [toFin3, Fin.ext_iff]
  omega

lemma learnUpdated_apply (tm : TransitionManager) (pi ci : Int) (q x : Fin 3) :
    learnUpdated tm pi ci q x =
      if q = toFin3 pi then
        (if x = toFin3 ci then tm.transition_matrix q x - tm.transition_adjustment / 2
         else if x = toFin3 ((ci + 2) % 3) then
           tm.transition_matrix q x - tm.transition_adjustment / 2
         else tm.transition_matrix q x + tm.transition_adjustment)
      else tm.transition_matrix q x := by
  have h1 : toFin3 ((ci + 1) % 3) ≠ toFin3 ci := by
    rw [Ne, toFin3_eq_iff]; omega
  have h2 : toFin3 ((ci + 2) % 3) ≠ toFin3 ci := by
    rw [Ne, toFin3_eq_iff]; omega
  have h3 : toFin3 ((ci + 1) % 3) ≠ toFin3 ((ci + 2) % 3) := by
    rw [Ne, toFin3_eq_iff]; omega
  unfold learnUpdated setCell
  rcases eq_or_ne q (toFin3 pi) with hq | hq
  · subst hq
    rcases toFin3_cover ci x with hx | hx | hx
    · subst hx
      simp [h1, h2, h3, Ne.symm h1, Ne.symm h2, Ne.symm h3]
    · subst hx
      simp [h1, h2, h3, Ne.symm h1, Ne.symm h2, Ne.symm h3]
    · subst hx
      simp [h1, h2, h3, Ne.symm h1, Ne.symm h2, Ne.symm h3]
  · simp [hq]

lemma learnUpdated_row_sum (tm : TransitionManager) (pi ci : Int) (q : Fin 3) :
    ∑ x, learnUpdated tm pi ci q x = ∑ x, tm.transition_matrix q x := by
  rcases eq_or_ne q (toFin3 pi) with hq | hq
  · subst hq
    have hc : ci % 3 = 0 ∨ ci % 3 = 1 ∨ ci % 3 = 2 := by omega
    rcases hc with h | h | h
    · have hk : toFin3 ci = (0 : Fin 3) := by simp [toFin3, Fin.ext_iff]; omega
      have hj : toFin3 ((ci + 2) % 3) = (2 : Fin 3) := by
        simp [toFin3, Fin.ext_iff]; omega
      simp [Fin.sum_univ_three, learnUpdated_apply, hk, hj]
      try ring
    · have hk : toFin3 ci = (1 : Fin 3) := by simp [toFin3, Fin.ext_iff]; omega
      have hj : toFin3 ((ci + 2) % 3) = (0 : Fin 3) := by
        simp [toFin3, Fin.ext_iff]; omega
      simp [Fin.sum_univ_three, learnUpdated_apply, hk, hj]
      try ring
    · have hk : toFin3 ci = (2 : Fin 3) := by simp [toFin3, Fin.ext_iff]; omega
      have hj : toFin3 ((ci + 2) % 3) = (1 : Fin 3) := by
        simp [toFin3, Fin.ext_iff]; omega
      simp [Fin.sum_univ_three, learnUpdated_apply, hk, hj]
      try ring
  · simp [Fin.sum_univ_three, learnUpdated_apply, hq]

lemma tmInv_start : TMInv TransitionManager.start := by
  refine ⟨rfl, ?_, ?_⟩
  · intro q
    norm_num [TransitionManager.start, Fin.sum_univ_three]
  · intro q x
    constructor <;> norm_num [TransitionManager.start]

lemma learn_adjustment (tm : TransitionManager) (pi ci : Int) :
    (tm.learn pi ci).transition_adjustment = tm.transition_adjustment := by
  unfold TransitionManager.learn
  split <;> rfl

lemma learn_other_rows (tm : TransitionManager) (pi ci : Int) (q : Fin 3)
    (hq : q ≠ toFin3 pi) (x : Fin 3) :
    (tm.learn pi ci).transition_matrix q x = tm.transition_matrix q x := by
  unfold TransitionManager.learn
  split
  · simp [learnUpdated_apply, hq]
  · rfl

lemma tmInv_learn (tm : TransitionManager) (pi ci : Int) (h : TMInv tm) :
    TMInv (tm.learn pi ci) := by
  obtain ⟨hadj, hsum, hcell⟩ := h
  unfold TransitionManager.learn
  split
  · next hg =>
    obtain ⟨hg1, hg2, hg3⟩ := hg
    refine ⟨hadj, ?_, ?_⟩
    · intro q
      show ∑ x, learnUpdated tm pi ci q x = 1
      rw [learnUpdated_row_sum]
      exact hsum q
    · intro q x
      show 0 ≤ learnUpdated tm pi ci q x ∧ learnUpdated tm pi ci q x ≤ 1
      rw [learnUpdated_apply]
      split_ifs with hqp hx1 hx2
      · subst hqp
        subst hx1
        have ha0 : (0 : ℚ) ≤ tm.transition_adjustment := by rw [hadj]; norm_num
        have hc := hcell (toFin3 pi) (toFin3 ci)
        exact ⟨by linarith, by linarith [hc.2]⟩
      · subst hqp
        subst hx2
        have ha0 : (0 : ℚ) ≤ tm.transition_adjustment := by rw [hadj]; norm_num
        have hc := hcell (toFin3 pi) (toFin3 ((ci + 2) % 3))
        exact ⟨by linarith, by linarith [hc.2]⟩
      · subst hqp
        have hx : x = toFin3 ((ci + 1) % 3) := by
          rcases toFin3_cover ci x with hx | hx | hx
          · exact absurd hx hx1
          · exact hx
          · exact absurd hx hx2
        subst hx
        have ha0 : (0 : ℚ) ≤ tm.transition_adjustment := by rw [hadj]; norm_num
        have hc := hcell (toFin3 pi) (toFin3 ((ci + 1) % 3))
        exact ⟨by linarith [hc.1], by linarith⟩
      · exact hcell q x
  · exact ⟨hadj, hsum, hcell⟩

lemma tmInv_of_reachable (tm : TransitionManager) (h : TMReachable tm) : TMInv tm := by
  induction h with
  | start => exact tmInv_start
  | learn tm2 p c _ _ _ ih => exact tmInv_learn tm2 p c ih

end MarkovChains

namespace MarkovChains

lemma check_result_cases (p a : String) :
    check_result p a = 1 ∨ check_result p a = -1 ∨ check_result p a = 0 := by
  unfold check_result
  split_ifs <;> simp

lemma gameInv_initGame (n : Nat) : GameInv (initGame n) := by
  refine ⟨Nat.zero_le _, fun n2 _ => ⟨rfl, rfl⟩, fun n2 => ?_⟩
  norm_num [initGame]

lemma gameInv_reset (s : GameState) : GameInv (reset_game s) := by
  refine ⟨Nat.zero_le _, fun n2 _ => ⟨rfl, rfl⟩, fun n2 => ?_⟩
  norm_num [reset_game]

lemma gameInv_play_round (s : GameState) (sel : String) (ai : Fin 3)
    (h : GameInv s) : GameInv (play_round s sel ai) := by
  obtain ⟨h1, h2, h3⟩ := h
  unfold play_round handle_results
  split_ifs with hend hzero
  · exact gameInv_reset s
  · unfold GameInv
    dsimp only
    refine ⟨by omega, ?_, ?_⟩
    · intro n hn
      have hne : ¬(n = s.num_round) := by omega
      simp only [hne, if_false]
      exact h2 n (by omega)
    · intro n
      by_cases hn : n = s.num_round
      · simp only [hn, if_pos rfl]
        rcases check_result_cases sel (stateAt ai) with hc | hc | hc <;>
          rw [hc] <;> norm_num
      · simp only [hn, if_false]
        exact h3 n
  · unfold GameInv
    dsimp only
    refine ⟨by omega, ?_, ?_⟩
    · intro n hn
      have hne : ¬(n = s.num_round) := by omega
      simp only [hne, if_false]
      exact h2 n (by omega)
    · intro n
      by_cases hn : n = s.num_round
      · simp only [hn, if_pos rfl]
        rcases check_result_cases sel (stateAt ai) with hc | hc | hc <;>
          rw [hc] <;> norm_num
      · simp only [hn, if_false]
        exact h3 n

lemma handle_end_game_eq_self (s : GameState) (pa : Bool)
    (h1 : s.num_round ≠ s.num_of_games) (h2 : maxScore s ≠ 10) :
    handle_end_game s pa = some s := by
  unfold handle_end_game
  rw [if_neg h1, if_neg h2]

lemma gameInv_handle_end_game (s : GameState) (pa : Bool) (s2 : GameState)
    (h : GameInv s) (he : handle_end_game s pa = some s2) : GameInv s2 := by
  unfold handle_end_game at he
  split_ifs at he
  · exact (Option.some_inj.mp he) ▸ h
  · exact (Option.some_inj.mp he) ▸ gameInv_reset s
  · exact (Option.some_inj.mp he) ▸ h

lemma gameInv_reachable (s : GameState) (h : Reachable s) : GameInv s := by
  induction h with
  | init n => exact gameInv_initGame n
  | step s1 sel ai pa s2 _ he ih =>
      exact gameInv_handle_end_game _ pa s2 (gameInv_play_round s1 sel ai ih) he

end MarkovChains

namespace MarkovChains

lemma playerSum_eq (s : GameState) (h : GameInv s) :
    playerSum s = ∑ n ∈ Finset.range s.num_round, s.all_player_points n := by
  obtain ⟨h1, h2, h3⟩ := h
  unfold playerSum
  refine (Finset.sum_subset (Finset.range_subset.mpr h1) ?_).symm
  intro x _ hx
  have hge : s.num_round ≤ x := by
    simpa [Finset.mem_range, Nat.not_lt] using hx
  exact (h2 x hge).1

lemma playerSum_bounds (s : GameState) (h : GameInv s) :
    playerSum s ≤ (s.num_round : Int) ∧ -(s.num_round : Int) ≤ playerSum s := by
  rw [playerSum_eq s h]
  obtain ⟨h1, h2, h3⟩ := h
  constructor
  · have hb := Finset.sum_le_card_nsmul (Finset.range s.num_round)
      s.all_player_points 1 (fun x _ => (h3 x).2.1)
    simpa [Finset.card_range, nsmul_eq_mul] using hb
  · have hb := Finset.card_nsmul_le_sum (Finset.range s.num_round)
      s.all_player_points (-1) (fun x _ => (h3 x).1)
    simpa [Finset.card_range, nsmul_eq_mul] using hb

lemma aiSum_eq_neg (s : GameState) (h : GameInv s) : aiSum s = -playerSum s := by
  obtain ⟨h1, h2, h3⟩ := h
  unfold aiSum playerSum
  rw [← Finset.sum_neg_distrib]
  exact Finset.sum_congr rfl fun n _ => (h3 n).2.2

lemma maxScore_le (s : GameState) (h : GameInv s) :
    maxScore s ≤ (s.num_round : Int) := by
  have hb := playerSum_bounds s h
  have ha := aiSum_eq_neg s h
  unfold maxScore
  rw [ha]
  exact max_le (by linarith [hb.2]) hb.1

lemma sum_write (g r : Nat) (f : Nat → Int) (v : Int) (hr : r < g) (h0 : f r = 0) :
    ∑ n ∈ Finset.range g, (if n = r then v else f n) = v + ∑ n ∈ Finset.range g, f n := by
  have hmem : r ∈ Finset.range g := Finset.mem_range.mpr hr
  rw [← Finset.sum_erase_add _ _ hmem, ← Finset.sum_erase_add _ f hmem]
  have he : ∀ n ∈ (Finset.range g).erase r, (if n = r then v else f n) = f n := by
    intro n hn
    rw [if_neg (Finset.ne_of_mem_erase hn)]
  rw [Finset.sum_congr rfl he, if_pos rfl, h0]
  ring

lemma play_round_record_sums (s : GameState) (sel : String) (ai : Fin 3)
    (hinv : GameInv s) (hrec : s.num_round ≠ s.num_of_games) :
    playerSum (play_round s sel ai) = playerSum s + check_result sel (stateAt ai) ∧
    aiSum (play_round s sel ai) = aiSum s - check_result sel (stateAt ai) ∧
    (play_round s sel ai).num_round = s.num_round + 1 ∧
    (play_round s sel ai).num_of_games = s.num_of_games := by
  obtain ⟨h1, h2, h3⟩ := hinv
  have hlt : s.num_round < s.num_of_games := by omega
  have hp0 : s.all_player_points s.num_round = 0 := (h2 s.num_round le_rfl).1
  have ha0 : s.all_ai_points s.num_round = 0 := (h2 s.num_round le_rfl).2
  unfold play_round
  split_ifs with hc1 hc2
  · exact absurd hc1 hrec
  · refine ⟨?_, ?_, rfl, rfl⟩
    · unfold playerSum handle_results
      dsimp only
      rw [sum_write _ _ _ _ hlt hp0]
      ring
    · unfold aiSum handle_results
      dsimp only
      rw [sum_write _ _ _ _ hlt ha0]
      ring
  · refine ⟨?_, ?_, rfl, rfl⟩
    · unfold playerSum handle_results
      dsimp only
      rw [sum_write _ _ _ _ hlt hp0]
      ring
    · unfold aiSum handle_results
      dsimp only
      rw [sum_write _ _ _ _ hlt ha0]
      ring

lemma maxScore_reset (s : GameState) : maxScore (reset_game s) = 0 := by
  unfold maxScore aiSum playerSum reset_game
  simp

lemma scoreInv_reachable (s : GameState) (h : Reachable s) :
    maxScore s ≤ 10 ∧ (maxScore s = 10 → s.num_round = s.num_of_games) := by
  induction h with
  | init n =>
      have h0 : maxScore (initGame n) = 0 := by
        unfold maxScore aiSum playerSum initGame
        simp
      rw [h0]
      exact ⟨by norm_num, fun h10 => absurd h10 (by norm_num)⟩
  | step s sel ai pa s2 hreach he ih =>
      have hginv := gameInv_reachable s hreach
      have hA : maxScore (play_round s sel ai) ≤ 10 := by
        by_cases hrec : s.num_round = s.num_of_games
        · have hres : play_round s sel ai = reset_game s := by
            unfold play_round
            rw [if_pos hrec]
          rw [hres, maxScore_reset]
          norm_num
        · obtain ⟨hps, has, hr1, hg1⟩ := play_round_record_sums s sel ai hginv hrec
          have hne10 : maxScore s ≠ 10 := fun h10 => hrec (ih.2 h10)
          have h9 : maxScore s ≤ 9 := by omega
          have hai_le : aiSum s ≤ 9 := le_trans (le_max_left _ _) h9
          have hpl_le : playerSum s ≤ 9 := le_trans (le_max_right _ _) h9
          have hres := check_result_cases sel (stateAt ai)
          unfold maxScore
          rw [hps, has]
          rcases hres with hc | hc | hc <;> rw [hc] <;>
            exact max_le (by omega) (by omega)
      unfold play_game at he
      unfold handle_end_game at he
      split_ifs at he with hc1 hc2 hc3
      · obtain rfl := Option.some_inj.mp he
        exact ⟨hA, fun _ => hc1⟩
      · obtain rfl := Option.some_inj.mp he
        rw [maxScore_reset]
        exact ⟨by norm_num, fun h10 => absurd h10 (by norm_num)⟩
      · obtain rfl := Option.some_inj.mp he
        exact ⟨hA, fun h10 => absurd h10 hc2⟩

end MarkovChains

namespace MarkovChains

/-- C7: `check_result` is antisymmetric on the three legal moves, zero on the
diagonal, and returns +1 exactly on the cyclic winning pairs and -1 exactly on
their reverses. -/
theorem claim7_outcome_rule (a b : String) (ha : a ∈ legalMoves) (hb : b ∈ legalMoves) :
    check_result a b = -check_result b a ∧ check_result a a = 0 ∧
    (check_result a b = 1 ↔ (a, b) ∈ winningPairs) ∧
    (check_result a b = -1 ↔ (b, a) ∈ winningPairs) := by
  simp only [legalMoves, List.mem_cons, List.not_mem_nil, or_false] at ha hb
  rcases ha with rfl | rfl | rfl <;> rcases hb with rfl | rfl | rfl <;> decide

/-- Witness for C7 at the pair (Rock, Scissors). -/
theorem claim7_witness :
    "Rock" ∈ legalMoves ∧ "Scissors" ∈ legalMoves ∧
    (check_result "Rock" "Scissors" = -check_result "Scissors" "Rock" ∧
      check_result "Rock" "Rock" = 0 ∧
      (check_result "Rock" "Scissors" = 1 ↔ ("Rock", "Scissors") ∈ winningPairs) ∧
      (check_result "Rock" "Scissors" = -1 ↔ ("Scissors", "Rock") ∈ winningPairs)) :=
  ⟨by decide, by decide, claim7_outcome_rule "Rock" "Scissors" (by decide) (by decide)⟩

/-- C6 fails on the code: there is no InvalidMoveError anywhere; submitting
"Lizard" to a fresh game is processed as a round (`get_index` returns -1,
`check_result` scores the unknown pair 0) and the round index advances, so
the state is not left unchanged. -/
theorem claim6_counterexample :
    "Lizard" ∉ legalMoves ∧ get_index "Lizard" = -1 ∧
    (play_round (initGame 30) "Lizard" 0).num_round = 1 ∧
    (initGame 30).num_round = 0 := by
  refine ⟨by decide, by decide, by decide, rfl⟩

/-- C6 (amended): a string outside the three legal moves is not rejected and
raises nothing; `get_index` maps it to -1, `check_result` scores every pair
containing it 0, and in any state where the match is not in the auto-reset
position (fresh or mid-match alike) the round is still played, incrementing
the round index, so the engine state changes. -/
theorem claim6_amended (s : GameState) (sel : String) (ai : Fin 3)
    (hsel : sel ∉ legalMoves) (hrec : s.num_round ≠ s.num_of_games) :
    get_index sel = -1 ∧
    (∀ b, check_result sel b = 0) ∧
    (∀ a, check_result a sel = 0) ∧
    (play_round s sel ai).num_round = s.num_round + 1 := by
  have hne : sel ≠ "Rock" ∧ sel ≠ "Paper" ∧ sel ≠ "Scissors" := by
    simp only [legalMoves, List.mem_cons, List.not_mem_nil, or_false, not_or] at hsel
    exact hsel
  refine ⟨?_, ?_, ?_, ?_⟩
  · unfold get_index
    rw [if_neg hne.1, if_neg hne.2.1, if_neg hne.2.2]
  · intro b
    simp [check_result, hne.1, hne.2.1, hne.2.2]
  · intro a
    simp [check_result, hne.1, hne.2.1, hne.2.2]
  · unfold play_round
    split_ifs with h1 h2
    · exact absurd h1 hrec
    · rfl
    · rfl

/-- Witness for C6 (amended) at input "Lizard" submitted mid-match, after one
legal round of a 30-round game. -/
theorem claim6_witness :
    "Lizard" ∉ legalMoves ∧
    (play_round (initGame 30) "Rock" 0).num_round
      ≠ (play_round (initGame 30) "Rock" 0).num_of_games ∧
    (get_index "Lizard" = -1 ∧
      (∀ b, check_result "Lizard" b = 0) ∧
      (∀ a, check_result a "Lizard" = 0) ∧
      (play_round (play_round (initGame 30) "Rock" 0) "Lizard" (0 : Fin 3)).num_round
        = (play_round (initGame 30) "Rock" 0).num_round + 1) :=
  ⟨by decide, by decide,
    claim6_amended (play_round (initGame 30) "Rock" 0) "Lizard" 0 (by decide) (by decide)⟩

/-- C8: submitting a move while the round counter equals the configured game
count auto-resets the engine (round 0, zeroed points, previous selection
cleared) and the submitted move is not played: `play_round` returns exactly
`reset_game` of the state, and the full button press keeps that reset
state. -/
theorem claim8_finished_auto_reset (s : GameState) (sel : String) (ai : Fin 3)
    (pa : Bool) (h : s.num_round = s.num_of_games) :
    play_round s sel ai = reset_game s ∧
    play_game s sel ai pa = some (reset_game s) ∧
    (reset_game s).num_round = 0 ∧
    (∀ n, (reset_game s).all_player_points n = 0 ∧ (reset_game s).all_ai_points n = 0) ∧
    (reset_game s).previous_user_selection = "" := by
  have h1 : play_round s sel ai = reset_game s := by
    unfold play_round
    rw [if_pos h]
  refine ⟨h1, ?_, rfl, fun n => ⟨rfl, rfl⟩, rfl⟩
  unfold play_game
  rw [h1]
  unfold handle_end_game
  by_cases h2 : (reset_game s).num_round = (reset_game s).num_of_games
  · rw [if_pos h2]
  · rw [if_neg h2]
    have h3 : maxScore (reset_game s) = 0 := by
      unfold maxScore aiSum playerSum reset_game
      simp
    rw [h3]
    norm_num

/-- Witness for C8 at a 0-round game, which starts with the round counter
already equal to the game count. -/
theorem claim8_witness :
    (initGame 0).num_round = (initGame 0).num_of_games ∧
    (play_round (initGame 0) "Rock" 0 = reset_game (initGame 0) ∧
      play_game (initGame 0) "Rock" 0 true = some (reset_game (initGame 0)) ∧
      (reset_game (initGame 0)).num_round = 0 ∧
      (∀ n, (reset_game (initGame 0)).all_player_points n = 0 ∧
        (reset_game (initGame 0)).all_ai_points n = 0) ∧
      (reset_game (initGame 0)).previous_user_selection = "") :=
  ⟨rfl, claim8_finished_auto_reset (initGame 0) "Rock" 0 true rfl⟩

/-- C9: `learn(p, c)` touches at most row `p` of the matrix: every row other
than `p` and the learning-step value are exactly unchanged, whether or not
the guard passes. -/
theorem claim9_frame (tm : TransitionManager) (p c : Int)
    (hp : p ∈ ({0, 1, 2} : Set Int)) (_hc : c ∈ ({0, 1, 2} : Set Int)) :
    (∀ q : Fin 3, (q : Int) ≠ p →
      ∀ x, (tm.learn p c).transition_matrix q x = tm.transition_matrix q x) ∧
    (tm.learn p c).transition_adjustment = tm.transition_adjustment := by
  refine ⟨?_, learn_adjustment tm p c⟩
  intro q hq x
  apply learn_other_rows
  intro he
  apply hq
  subst he
  simp only [Set.mem_insert_iff, Set.mem_singleton_iff] at hp
  rcases hp with rfl | rfl | rfl <;> rfl

/-- Witness for C9: learning on row 0 leaves row 1 and the step unchanged. -/
theorem claim9_witness :
    (0 : Int) ∈ ({0, 1, 2} : Set Int) ∧ (1 : Int) ∈ ({0, 1, 2} : Set Int) ∧
    (TransitionManager.start.learn 0 1).transition_matrix 1 0
      = TransitionManager.start.transition_matrix 1 0 ∧
    (TransitionManager.start.learn 0 1).transition_adjustment
      = TransitionManager.start.transition_adjustment :=
  ⟨by simp, by simp,
    (claim9_frame TransitionManager.start 0 1 (by simp) (by simp)).1 1 (by decide) 0,
    (claim9_frame TransitionManager.start 0 1 (by simp) (by simp)).2⟩

/-- C10: in every reachable state the round counter is at most the game
count, so whenever a round is recorded (the recording branches of
`play_round` require the counter to differ from the game count) the write
index `num_round` is strictly below the length `num_of_games` of the two
point arrays. -/
theorem claim10_write_in_bounds (s : GameState) (h : Reachable s)
    (hrec : s.num_round ≠ s.num_of_games) :
    s.num_round < s.num_of_games := by
  have hinv := gameInv_reachable s h
  have h1 := hinv.1
  omega

/-- Witness for C10 at a fresh 5-round game. -/
theorem claim10_witness :
    Reachable (initGame 5) ∧
    (initGame 5).num_round ≠ (initGame 5).num_of_games ∧
    (initGame 5).num_round < (initGame 5).num_of_games :=
  ⟨Reachable.init 5, by decide,
    claim10_write_in_bounds (initGame 5) (Reachable.init 5) (by decide)⟩

/-- C2: in every transition-matrix state reachable by `learn` calls, each row
sums to 1 within 1e-9 (in fact exactly, the update being exact rational
arithmetic) and every cell lies in [0,1]. -/
theorem claim2_invariant (tm : TransitionManager) (h : TMReachable tm) :
    (∀ q, |(∑ x, tm.transition_matrix q x) - 1| ≤ 1 / 1000000000) ∧
    (∀ q x, 0 ≤ tm.transition_matrix q x ∧ tm.transition_matrix q x ≤ 1) := by
  obtain ⟨-, hsum, hcell⟩ := tmInv_of_reachable tm h
  refine ⟨fun q => ?_, hcell⟩
  rw [hsum q]
  norm_num

/-- Witness for C2 at the initial matrix. -/
theorem claim2_witness :
    TMReachable TransitionManager.start ∧
    |(∑ x, TransitionManager.start.transition_matrix 0 x) - 1| ≤ 1 / 1000000000 ∧
    0 ≤ TransitionManager.start.transition_matrix 0 0 ∧
    TransitionManager.start.transition_matrix 0 0 ≤ 1 :=
  ⟨TMReachable.start,
    (claim2_invariant TransitionManager.start TMReachable.start).1 0,
    ((claim2_invariant TransitionManager.start TMReachable.start).2 0 0).1,
    ((claim2_invariant TransitionManager.start TMReachable.start).2 0 0).2⟩

end MarkovChains

namespace MarkovChains

/-- C1 fails on the code: `learn` increments cell `(c + 1) % 3` of the row,
not cell `c` (line 236 binds `i, j, k = ((c+1)%3, (c+2)%3, c)` and line 242
adds the adjustment to `i` while line 240 subtracts from `k = c`).  At the
uniform initial matrix, `learn(0, 0)` passes the guard yet the probability
`predict(0)` assigns to move 0 strictly decreases. -/
theorem claim1_counterexample :
    learnGuard TransitionManager.start 0 0 ∧
    (TransitionManager.start.learn 0 0).predict 0 (toFin3 0)
      < TransitionManager.start.predict 0 (toFin3 0) := by
  have hg : learnGuard TransitionManager.start 0 0 := by
    unfold learnGuard TransitionManager.start
    norm_num [toFin3_zero, toFin3_one, toFin3_two]
  refine ⟨hg, ?_⟩
  unfold TransitionManager.predict
  rw [TransitionManager.learn, if_pos hg]
  show learnUpdated TransitionManager.start 0 0 (toFin3 0) (toFin3 0)
    < TransitionManager.start.transition_matrix (toFin3 0) (toFin3 0)
  unfold learnUpdated setCell TransitionManager.start
  norm_num [toFin3_zero, toFin3_one, toFin3_two, Fin.ext_iff]

/-- C1 (amended): when the guard passes, `learn(p, c)` increases the
probability `predict(p)` assigns to move `(c + 1) % 3` — the move that beats
`c` — by exactly LearningStep (0.05), and strictly decreases the
probabilities of the other two moves, `c` and `(c + 2) % 3`, by exactly
LearningStep/2 each. -/
theorem claim1_amended (tm : TransitionManager) (p c : Int)
    (_hp : p ∈ ({0, 1, 2} : Set Int)) (_hc : c ∈ ({0, 1, 2} : Set Int))
    (hInv : TMInv tm) (hg : learnGuard tm p c) :
    ((tm.learn p c).predict p (toFin3 ((c + 1) % 3))
        = tm.predict p (toFin3 ((c + 1) % 3)) + 1 / 20 ∧
      tm.predict p (toFin3 ((c + 1) % 3))
        < (tm.learn p c).predict p (toFin3 ((c + 1) % 3))) ∧
    ((tm.learn p c).predict p (toFin3 c) = tm.predict p (toFin3 c) - 1 / 40 ∧
      (tm.learn p c).predict p (toFin3 c) < tm.predict p (toFin3 c)) ∧
    ((tm.learn p c).predict p (toFin3 ((c + 2) % 3))
        = tm.predict p (toFin3 ((c + 2) % 3)) - 1 / 40 ∧
      (tm.learn p c).predict p (toFin3 ((c + 2) % 3))
        < tm.predict p (toFin3 ((c + 2) % 3))) := by
  obtain ⟨hadj, hsum, hcell⟩ := hInv
  have h1 : toFin3 ((c + 1) % 3) ≠ toFin3 c := by rw [Ne, toFin3_eq_iff]; omega
  have h2 : toFin3 ((c + 2) % 3) ≠ toFin3 c := by rw [Ne, toFin3_eq_iff]; omega
  have h3 : toFin3 ((c + 1) % 3) ≠ toFin3 ((c + 2) % 3) := by
    rw [Ne, toFin3_eq_iff]; omega
  unfold TransitionManager.predict
  rw [TransitionManager.learn, if_pos hg]
  dsimp only
  rw [learnUpdated_apply tm p c (toFin3 p) (toFin3 ((c + 1) % 3)),
    learnUpdated_apply tm p c (toFin3 p) (toFin3 c),
    learnUpdated_apply tm p c (toFin3 p) (toFin3 ((c + 2) % 3))]
  simp only [eq_self_iff_true, if_true, h1, h2, h3, if_false]
  rw [hadj]
  refine ⟨⟨by ring, by linarith⟩, ⟨by ring, by linarith⟩, by ring, by linarith⟩

/-- Witness for C1 (amended) at the uniform matrix with p = c = 0. -/
theorem claim1_witness :
    (0 : Int) ∈ ({0, 1, 2} : Set Int) ∧ TMInv TransitionManager.start ∧
    learnGuard TransitionManager.start 0 0 ∧
    (((TransitionManager.start.learn 0 0).predict 0 (toFin3 ((0 + 1) % 3))
        = TransitionManager.start.predict 0 (toFin3 ((0 + 1) % 3)) + 1 / 20 ∧
      TransitionManager.start.predict 0 (toFin3 ((0 + 1) % 3))
        < (TransitionManager.start.learn 0 0).predict 0 (toFin3 ((0 + 1) % 3))) ∧
    ((TransitionManager.start.learn 0 0).predict 0 (toFin3 0)
        = TransitionManager.start.predict 0 (toFin3 0) - 1 / 40 ∧
      (TransitionManager.start.learn 0 0).predict 0 (toFin3 0)
        < TransitionManager.start.predict 0 (toFin3 0)) ∧
    ((TransitionManager.start.learn 0 0).predict 0 (toFin3 ((0 + 2) % 3))
        = TransitionManager.start.predict 0 (toFin3 ((0 + 2) % 3)) - 1 / 40 ∧
      (TransitionManager.start.learn 0 0).predict 0 (toFin3 ((0 + 2) % 3))
        < TransitionManager.start.predict 0 (toFin3 ((0 + 2) % 3)))) :=
  ⟨by simp, tmInv_start,
    by unfold learnGuard TransitionManager.start
       norm_num [toFin3_zero, toFin3_one, toFin3_two],
    claim1_amended TransitionManager.start 0 0 (by simp) (by simp) tmInv_start
      (by unfold learnGuard TransitionManager.start
          norm_num [toFin3_zero, toFin3_one, toFin3_two])⟩

end MarkovChains

namespace MarkovChains

/-- C3: the `learn` adjustment is applied exactly when, after applying it,
every cell of row `p` would still lie in [0,1] (for a non-negative step and a
row currently within [0,1], that is equivalent to the code's guard: the two
decremented cells hold at least step/2 and the incremented cell has step of
headroom below 1); when the guard fails the whole manager, row `p` included,
is returned unchanged. -/
theorem claim3_guard_iff (tm : TransitionManager) (p c : Int)
    (hadj : 0 ≤ tm.transition_adjustment)
    (hcell : ∀ x, 0 ≤ tm.transition_matrix (toFin3 p) x ∧
      tm.transition_matrix (toFin3 p) x ≤ 1) :
    (learnGuard tm p c ↔
      ∀ x, 0 ≤ learnUpdated tm p c (toFin3 p) x ∧
        learnUpdated tm p c (toFin3 p) x ≤ 1) ∧
    (learnGuard tm p c → (tm.learn p c).transition_matrix = learnUpdated tm p c) ∧
    (¬learnGuard tm p c → tm.learn p c = tm) := by
  have h1 : toFin3 ((c + 1) % 3) ≠ toFin3 c := by rw [Ne, toFin3_eq_iff]; omega
  have h2 : toFin3 ((c + 2) % 3) ≠ toFin3 c := by rw [Ne, toFin3_eq_iff]; omega
  have h3 : toFin3 ((c + 1) % 3) ≠ toFin3 ((c + 2) % 3) := by
    rw [Ne, toFin3_eq_iff]; omega
  refine ⟨⟨?_, ?_⟩, ?_, ?_⟩
  · rintro ⟨hg1, hg2, hg3⟩ x
    rw [learnUpdated_apply]
    simp only [eq_self_iff_true, if_true]
    split_ifs with hx1 hx2
    · subst hx1
      have hcc := hcell (toFin3 c)
      exact ⟨by linarith, by linarith [hcc.2]⟩
    · subst hx2
      have hcc := hcell (toFin3 ((c + 2) % 3))
      exact ⟨by linarith, by linarith [hcc.2]⟩
    · have hx : x = toFin3 ((c + 1) % 3) := by
        rcases toFin3_cover c x with hx | hx | hx
        · exact absurd hx hx1
        · exact hx
        · exact absurd hx hx2
      subst hx
      have hcc := hcell (toFin3 ((c + 1) % 3))
      exact ⟨by linarith [hcc.1], by linarith⟩
  · intro hpost
    have ha := hpost (toFin3 c)
    have hb := hpost (toFin3 ((c + 2) % 3))
    have hcx := hpost (toFin3 ((c + 1) % 3))
    rw [learnUpdated_apply] at ha hb hcx
    simp only [eq_self_iff_true, if_true, h1, h2, h3, if_false] at ha hb hcx
    exact ⟨by linarith [ha.1], by linarith [hb.1], by linarith [hcx.2]⟩
  · intro hg
    unfold TransitionManager.learn
    rw [if_pos hg]
  · intro hg
    unfold TransitionManager.learn
    rw [if_neg hg]

/-- Witness for C3 at the uniform matrix with p = c = 0. -/
theorem claim3_witness :
    0 ≤ TransitionManager.start.transition_adjustment ∧
    (∀ x, 0 ≤ TransitionManager.start.transition_matrix (toFin3 0) x ∧
      TransitionManager.start.transition_matrix (toFin3 0) x ≤ 1) ∧
    ((learnGuard TransitionManager.start 0 0 ↔
      ∀ x, 0 ≤ learnUpdated TransitionManager.start 0 0 (toFin3 0) x ∧
        learnUpdated TransitionManager.start 0 0 (toFin3 0) x ≤ 1) ∧
    (learnGuard TransitionManager.start 0 0 →
      (TransitionManager.start.learn 0 0).transition_matrix
        = learnUpdated TransitionManager.start 0 0) ∧
    (¬learnGuard TransitionManager.start 0 0 →
      TransitionManager.start.learn 0 0 = TransitionManager.start)) :=
  ⟨by norm_num [TransitionManager.start],
    fun x => ⟨by norm_num [TransitionManager.start], by norm_num [TransitionManager.start]⟩,
    claim3_guard_iff TransitionManager.start 0 0
      (by norm_num [TransitionManager.start])
      (fun x => ⟨by norm_num [TransitionManager.start],
        by norm_num [TransitionManager.start]⟩)⟩

end MarkovChains

namespace MarkovChains

/-- C4 fails on the code: `reset_game` (lines 391-406) resets the round
counter, the point arrays and the previous selection, but never touches
`self.transition_manager`.  From the reachable state where the human pressed
Rock twice (so `learn(0, 0)` ran), cell (0,1) of the matrix is
1/3 + 0.05 and stays there through the reset, so the reset matrix is not the
uniform matrix. -/
theorem claim4_counterexample :
    Reachable twoRockState ∧
    (reset_game twoRockState).tm.transition_matrix 0 1 ≠ 1 / 3 := by
  constructor
  · have r0 : Reachable (initGame 5) := Reachable.init 5
    have e1 : play_game (initGame 5) "Rock" 0 true
        = some (play_round (initGame 5) "Rock" 0) := by
      unfold play_game
      exact handle_end_game_eq_self _ _ (by decide) (by decide)
    have r1 : Reachable (play_round (initGame 5) "Rock" 0) :=
      Reachable.step _ _ _ _ _ r0 e1
    have e2 : play_game (play_round (initGame 5) "Rock" 0) "Rock" 0 true
        = some twoRockState := by
      unfold play_game twoRockState
      exact handle_end_game_eq_self _ _ (by decide) (by decide)
    exact Reachable.step _ _ _ _ _ r1 e2
  · have htm : (reset_game twoRockState).tm = TransitionManager.start.learn 0 0 := rfl
    rw [htm]
    have hg : learnGuard TransitionManager.start 0 0 := by
      unfold learnGuard TransitionManager.start
      norm_num [toFin3_zero, toFin3_one, toFin3_two]
    rw [TransitionManager.learn, if_pos hg]
    show learnUpdated TransitionManager.start 0 0 0 1 ≠ 1 / 3
    unfold learnUpdated setCell TransitionManager.start
    norm_num [toFin3_zero, toFin3_one, toFin3_two, Fin.ext_iff]

/-- C4 (amended): `reset_game` from any state yields round counter 0, all
point entries (hence both running totals) zero and a cleared previous
selection, but leaves the transition matrix exactly as it was; the matrix is
not re-seeded to the uniform 1/3 matrix. -/
theorem claim4_amended (s : GameState) :
    (reset_game s).num_round = 0 ∧
    (∀ n, (reset_game s).all_player_points n = 0 ∧ (reset_game s).all_ai_points n = 0) ∧
    playerSum (reset_game s) = 0 ∧ aiSum (reset_game s) = 0 ∧
    (reset_game s).previous_user_selection = "" ∧
    (reset_game s).tm = s.tm :=
  ⟨rfl, fun _ => ⟨rfl, rfl⟩, by simp [playerSum, reset_game],
    by simp [aiSum, reset_game], rfl, rfl⟩

/-- C5: on every reachable state (any configured match length) the end-of-game
check fires exactly when the round counter has reached the configured game
count or either side's cumulative score is exactly 10; cumulative scores never
exceed 10 and can equal 10 only once the round count is reached, because a
button press whose round takes a score to 10 before the round count ends the
match on the spot (the state survives continuation exactly when the check does
not fire, and the press destroys the window, dialogs declined, exactly when
the post-round score hits 10 early); in particular in a 5-round match the
check fires exactly at round index 5, never earlier or later, the threshold
being unreachable in 5 rounds. -/
theorem claim5_termination (s : GameState) (h : Reachable s) :
    (finishedCheck s ↔
      (s.num_round = s.num_of_games ∨ aiSum s = 10 ∨ playerSum s = 10)) ∧
    maxScore s ≤ 10 ∧
    (maxScore s = 10 → s.num_round = s.num_of_games) ∧
    (∀ sel ai,
      (¬finishedCheck (play_round s sel ai) →
        ∀ pa, play_game s sel ai pa = some (play_round s sel ai)) ∧
      (∀ pa, (play_round s sel ai).num_round = (play_round s sel ai).num_of_games →
        play_game s sel ai pa = some (play_round s sel ai)) ∧
      (play_game s sel ai false = none ↔
        ((play_round s sel ai).num_round ≠ (play_round s sel ai).num_of_games ∧
          maxScore (play_round s sel ai) = 10))) ∧
    (s.num_of_games = 5 → (finishedCheck s ↔ s.num_round = 5)) := by
  have hginv := gameInv_reachable s h
  have hsc := scoreInv_reachable s h
  have hai := aiSum_eq_neg s hginv
  refine ⟨?_, hsc.1, hsc.2, ?_, ?_⟩
  · unfold finishedCheck maxScore
    constructor
    · rintro (hr | hm)
      · exact Or.inl hr
      · rcases max_choice (aiSum s) (playerSum s) with hmx | hmx
        · rw [hmx] at hm
          exact Or.inr (Or.inl hm)
        · rw [hmx] at hm
          exact Or.inr (Or.inr hm)
    · rintro (hr | hA | hP)
      · exact Or.inl hr
      · right
        have hP10 : playerSum s = -10 := by rw [hA] at hai; linarith
        rw [hA, hP10]
        norm_num
      · right
        have hA10 : aiSum s = -10 := by rw [hP] at hai; linarith
        rw [hP, hA10]
        norm_num
  · intro sel ai
    refine ⟨?_, ?_, ?_⟩
    · intro hnf pa
      unfold play_game
      exact handle_end_game_eq_self _ _ (fun hh => hnf (Or.inl hh))
        (fun hh => hnf (Or.inr hh))
    · intro pa hfin
      unfold play_game handle_end_game
      rw [if_pos hfin]
    · unfold play_game handle_end_game
      split_ifs with hc1 hc2 hc3
      · simp [hc1]
      · exact absurd hc3 (by simp)
      · simp [hc1, hc2]
      · simp [hc1, hc2]
  · intro h5
    have hle := hginv.1
    have hms := maxScore_le s hginv
    constructor
    · rintro (hr | hm)
      · omega
      · exfalso
        rw [hm] at hms
        have hcast : (s.num_round : Int) ≤ 5 := by
          rw [h5] at hle
          exact_mod_cast hle
        linarith
    · intro hr
      exact Or.inl (by omega)

/-- Witness for C5 on the straight-wins trace of a 30-round match: after 9
winning rounds the score is 9 and the match is not finished (so the threshold
is strictly above 9), and the 10th winning press takes the score to exactly
10 at round 10, before the 30-round count, and terminates the match early
(the press returns `none`, the window-destroy path). -/
theorem claim5_witness :
    Reachable (winState 9) ∧
    (winState 9).num_round = 9 ∧ (winState 9).num_of_games = 30 ∧
    playerSum (winState 9) = 9 ∧ aiSum (winState 9) = -9 ∧
    ¬finishedCheck (winState 9) ∧
    (winState 10).num_round = 10 ∧ maxScore (winState 10) = 10 ∧
    play_game (winState 9) "Rock" 2 false = none := by
  have r0 : Reachable (winState 0) := Reachable.init 30
  have r1 : Reachable (winState 1) :=
    Reachable.step (winState 0) "Rock" 2 true (winState 1) r0
      (handle_end_game_eq_self _ _ (by decide) (by decide))
  have r2 : Reachable (winState 2) :=
    Reachable.step (winState 1) "Rock" 2 true (winState 2) r1
      (handle_end_game_eq_self _ _ (by decide) (by decide))
  have r3 : Reachable (winState 3) :=
    Reachable.step (winState 2) "Rock" 2 true (winState 3) r2
      (handle_end_game_eq_self _ _ (by decide) (by decide))
  have r4 : Reachable (winState 4) :=
    Reachable.step (winState 3) "Rock" 2 true (winState 4) r3
      (handle_end_game_eq_self _ _ (by decide) (by decide))
  have r5 : Reachable (winState 5) :=
    Reachable.step (winState 4) "Rock" 2 true (winState 5) r4
      (handle_end_game_eq_self _ _ (by decide) (by decide))
  have r6 : Reachable (winState 6) :=
    Reachable.step (winState 5) "Rock" 2 true (winState 6) r5
      (handle_end_game_eq_self _ _ (by decide) (by decide))
  have r7 : Reachable (winState 7) :=
    Reachable.step (winState 6) "Rock" 2 true (winState 7) r6
      (handle_end_game_eq_self _ _ (by decide) (by decide))
  have r8 : Reachable (winState 8) :=
    Reachable.step (winState 7) "Rock" 2 true (winState 8) r7
      (handle_end_game_eq_self _ _ (by decide) (by decide))
  have r9 : Reachable (winState 9) :=
    Reachable.step (winState 8) "Rock" 2 true (winState 9) r8
      (handle_end_game_eq_self _ _ (by decide) (by decide))
  have hmain := claim5_termination (winState 9) r9
  refine ⟨r9, by decide, by decide, by decide, by decide, ?_, by decide, by decide, ?_⟩
  · intro hf
    rcases hmain.1.mp hf with hh | hh | hh
    · exact absurd hh (by decide)
    · exact absurd hh (by decide)
    · exact absurd hh (by decide)
  · exact ((hmain.2.2.2.1 "Rock" 2).2.2).mpr ⟨by decide, by decide⟩

end MarkovChains
